import Mathlib

/-!
Verification of the EvossBE admin config backend.

The embedding models `routes/admin.ts` (the admin router: basic-auth guard,
zod body validation, local JSON config store, GitHub-backed remote config
store, and the GET/PUT `/auth/secret/config` handlers).  Strings are
modelled as `List Char` (`Str`), JSON documents as the inductive `Json`
(numbers restricted to integers; the claims under study do not depend on
float formatting), the filesystem as a map from page key to optional file
content, and the network as an oracle recording the responses the GitHub
content API would return.  `JSON.stringify(x, null, 2)` and `JSON.parse`
are embedded as an executable pretty-printer and parser, and
`Buffer.from(_, 'base64')` / `.toString('base64')` as executable codecs
over byte-sized characters.
-/

namespace EvossBE

/-- Strings of the model: lists of characters (JS strings, byte-level). -/
abbrev Str := List Char

/-- Converts a Lean string literal into the model's string type. -/
def lit (s : String) : Str := s.data

/-! ### Generic character-list utilities -/

/-- Whitespace recognised by `JSON.parse` between tokens. -/
def wsChar (c : Char) : Bool := c = ' ' || c = '\n' || c = '\t' || c = '\r'

/-- Drops leading whitespace. -/
def skipWs : Str → Str
  | [] => []
  | c :: cs => if wsChar c then skipWs cs else c :: cs

/-- Decimal digit test (ASCII `0`..`9`). -/
def isDec (c : Char) : Bool := '0' ≤ c && c ≤ '9'

/-- Splits a character list at every occurrence of `sep`, JS
`String.prototype.split` style: the result is never empty, and the
separators are not part of the chunks. -/
def splitOnChar (sep : Char) : Str → List Str
  | [] => [[]]
  | c :: cs =>
    match splitOnChar sep cs with
    | [] => [[]]
    | s :: ss => if c = sep then [] :: s :: ss else (c :: s) :: ss

/-! ### Decimal printing (the digits part of `String(n)` / `JSON.stringify`) -/

/-- The character for one decimal digit. -/
def decChar : Nat → Char
  | 0 => '0' | 1 => '1' | 2 => '2' | 3 => '3' | 4 => '4'
  | 5 => '5' | 6 => '6' | 7 => '7' | 8 => '8' | _ => '9'

/-- Fuelled accumulator loop producing the decimal digits of `n` (most
significant first) in front of `acc`; `fuel` only needs to cover the digit
count, and is structural so that concrete inputs evaluate by `decide`. -/
def natReprAux : Nat → Nat → Str → Str
  | 0, _, acc => acc
  | fuel + 1, n, acc =>
    if n < 10 then decChar n :: acc
    else natReprAux fuel (n / 10) (decChar (n % 10) :: acc)

/-- Decimal representation of a natural number. -/
def natRepr (n : Nat) : Str := natReprAux (n + 1) n []

/-- Decimal representation of an integer (sign, then digits), as
`String(n)` prints a JS integer. -/
def intRepr : Int → Str
  | .ofNat n => natRepr n
  | .negSucc m => '-' :: natRepr (m + 1)

/-! ### Base64 (Node `Buffer.from(s, 'base64')` and `.toString('base64')`) -/

/-- Value of one base64 alphabet character; `none` for characters outside
the alphabet (Node ignores those while decoding). -/
def b64Val (c : Char) : Option Nat :=
  if 'A' ≤ c && c ≤ 'Z' then some (c.toNat - 65)
  else if 'a' ≤ c && c ≤ 'z' then some (c.toNat - 97 + 26)
  else if '0' ≤ c && c ≤ '9' then some (c.toNat - 48 + 52)
  else if c = '+' then some 62
  else if c = '/' then some 63
  else none

/-- Reassembles bytes from a list of 6-bit values, dropping a trailing
lone sextet as Node does. -/
def b64Bytes : List Nat → List Nat
  | a :: b :: c :: d :: rest =>
    (a * 4 + b / 16) :: ((b % 16) * 16 + c / 4) :: ((c % 4) * 64 + d) :: b64Bytes rest
  | [a, b, c] => [a * 4 + b / 16, (b % 16) * 16 + c / 4]
  | [a, b] => [a * 4 + b / 16]
  | _ => []

/-- Models `Buffer.from(s, 'base64').toString()` for byte-sized text:
non-alphabet characters (including padding) are skipped, then complete
groups are decoded. -/
def base64Decode (s : Str) : Str :=
  (b64Bytes (s.filterMap b64Val)).map Char.ofNat

/-- The base64 alphabet character for a 6-bit value. -/
def b64Char (n : Nat) : Char :=
  if n < 26 then Char.ofNat (65 + n)
  else if n < 52 then Char.ofNat (97 + n - 26)
  else if n < 62 then Char.ofNat (48 + n - 52)
  else if n = 62 then '+'
  else '/'

/-- Standard base64 encoding of a byte list, with `=` padding. -/
def b64EncodeBytes : List Nat → Str
  | [] => []
  | [a] => [b64Char (a / 4), b64Char ((a % 4) * 16), '=', '=']
  | [a, b] => [b64Char (a / 4), b64Char ((a % 4) * 16 + b / 16), b64Char ((b % 16) * 4), '=']
  | a :: b :: c :: rest =>
    b64Char (a / 4) :: b64Char ((a % 4) * 16 + b / 16) ::
      b64Char ((b % 16) * 4 + c / 64) :: b64Char (c % 64) :: b64EncodeBytes rest

/-- Models `Buffer.from(s).toString('base64')` for byte-sized text. -/
def base64Encode (s : Str) : Str := b64EncodeBytes (s.map Char.toNat)

/-! ### JSON documents

`ConfigDocument` of the spec: an arbitrary JSON value.  Numbers are
modelled as integers. -/

/-- A JSON value: the model of the `any` documents the service stores. -/
inductive Json where
  | null
  | bool (b : Bool)
  | num (n : Int)
  | str (s : Str)
  | arr (elems : List Json)
  | obj (members : List (Str × Json))

/-! ### `JSON.stringify(value, null, 2)` -/

/-- The character for one hexadecimal digit (lowercase). -/
def hexChar : Nat → Char
  | 0 => '0' | 1 => '1' | 2 => '2' | 3 => '3' | 4 => '4' | 5 => '5'
  | 6 => '6' | 7 => '7' | 8 => '8' | 9 => '9' | 10 => 'a' | 11 => 'b'
  | 12 => 'c' | 13 => 'd' | 14 => 'e' | _ => 'f'

/-- JSON escaping of one character inside a string literal, as
`JSON.stringify` emits it: quote and backslash escaped, the named control
escapes, `\u00XX` for the remaining control characters, everything else
verbatim. -/
def escChar (c : Char) : Str :=
  if c = '"' then ['\\', '"']
  else if c = '\\' then ['\\', '\\']
  else if c = '\n' then ['\\', 'n']
  else if c = '\t' then ['\\', 't']
  else if c = '\r' then ['\\', 'r']
  else if c = Char.ofNat 8 then ['\\', 'b']
  else if c = Char.ofNat 12 then ['\\', 'f']
  else if c.toNat < 32 then
    ['\\', 'u', '0', '0', hexChar (c.toNat / 16), hexChar (c.toNat % 16)]
  else [c]

/-- Escapes every character of a string body. -/
def escBody : Str → Str
  | [] => []
  | c :: cs => escChar c ++ escBody cs

/-- A quoted JSON string literal. -/
def quoteStr (s : Str) : Str := '"' :: (escBody s ++ ['"'])

/-- `n` spaces of indentation. -/
def pad (n : Nat) : Str := List.replicate n ' '

mutual
/-- Models `JSON.stringify(j, null, 2)` rendered at indentation `ind`:
two-space indented, `"key": value` members, brackets of a non-empty
container on their own lines. -/
def pretty : Nat → Json → Str
  | _, .null => ['n', 'u', 'l', 'l']
  | _, .bool true => ['t', 'r', 'u', 'e']
  | _, .bool false => ['f', 'a', 'l', 's', 'e']
  | _, .num n => intRepr n
  | _, .str s => quoteStr s
  | _, .arr [] => ['[', ']']
  | ind, .arr (x :: xs) =>
    '[' :: '\n' :: (prettyItems (ind + 2) x xs ++ '\n' :: (pad ind ++ [']']))
  | _, .obj [] => ['\x7b', '\x7d']
  | ind, .obj (m :: ms) =>
    '\x7b' :: '\n' :: (prettyPairs (ind + 2) m ms ++ '\n' :: (pad ind ++ ['\x7d']))
termination_by _ j => sizeOf j

/-- The comma-and-newline separated element lines of a non-empty array. -/
def prettyItems : Nat → Json → List Json → Str
  | ind, x, [] => pad ind ++ pretty ind x
  | ind, x, y :: ys => pad ind ++ pretty ind x ++ ',' :: '\n' :: prettyItems ind y ys
termination_by _ x xs => 1 + sizeOf x + sizeOf xs

/-- The member lines of a non-empty object. -/
def prettyPairs : Nat → (Str × Json) → List (Str × Json) → Str
  | ind, (k, v), [] => pad ind ++ (quoteStr k ++ ':' :: ' ' :: pretty ind v)
  | ind, (k, v), m :: ms =>
    pad ind ++ (quoteStr k ++ ':' :: ' ' :: pretty ind v) ++ ',' :: '\n' :: prettyPairs ind m ms
termination_by _ m ms => 1 + sizeOf m + sizeOf ms
end

/-- Models `JSON.stringify(j, null, 2)` (line 88 and line 136 of the
router source). -/
def jsonStringify (j : Json) : Str := pretty 0 j

/-! ### `JSON.parse` -/

/-- Is the first character `c`?  (`false` on the empty list.) -/
def headIs (c : Char) : Str → Bool
  | [] => false
  | d :: _ => d = c

/-- Value of a hexadecimal digit character. -/
def hexVal (c : Char) : Option Nat :=
  if isDec c then some (c.toNat - 48)
  else if 97 ≤ c.toNat ∧ c.toNat ≤ 102 then some (c.toNat - 87)
  else if 65 ≤ c.toNat ∧ c.toNat ≤ 70 then some (c.toNat - 55)
  else none

/-- The named single-character escapes of JSON. -/
def unescNamed (e : Char) : Option Char :=
  if e = 'n' then some '\n'
  else if e = 't' then some '\t'
  else if e = 'r' then some '\r'
  else if e = 'b' then some (Char.ofNat 8)
  else if e = 'f' then some (Char.ofNat 12)
  else if e = '"' then some '"'
  else if e = '\\' then some '\\'
  else if e = '/' then some '/'
  else none

/-- Parses a string body after the opening quote, up to and including the
closing quote, undoing escapes. -/
def strBody : Str → Option (Str × Str)
  | [] => none
  | c :: r =>
    if c = '"' then some ([], r)
    else if c = '\\' then
      match r with
      | [] => none
      | e :: r1 =>
        if e = 'u' then
          match r1 with
          | h1 :: h2 :: h3 :: h4 :: r2 =>
            match hexVal h1, hexVal h2, hexVal h3, hexVal h4 with
            | some v1, some v2, some v3, some v4 =>
              match strBody r2 with
              | some (s, rest) =>
                some (Char.ofNat (((v1 * 16 + v2) * 16 + v3) * 16 + v4) :: s, rest)
              | none => none
            | _, _, _, _ => none
          | _ => none
        else
          match unescNamed e with
          | some u =>
            match strBody r1 with
            | some (s, rest) => some (u :: s, rest)
            | none => none
          | none => none
    else
      match strBody r with
      | some (s, rest) => some (c :: s, rest)
      | none => none

/-- Takes the maximal run of decimal digits. -/
def takeDec : Str → Str × Str
  | [] => ([], [])
  | c :: r =>
    if isDec c then
      let p := takeDec r
      (c :: p.1, p.2)
    else ([], c :: r)

/-- Accumulator loop for the numeric value of a digit run. -/
def decValAux : Nat → Str → Nat
  | acc, [] => acc
  | acc, c :: r => decValAux (acc * 10 + (c.toNat - 48)) r

/-- Numeric value of a digit run. -/
def decVal (ds : Str) : Nat := decValAux 0 ds

mutual
/-- Fuelled recursive-descent JSON value parser.  Fuel decreases by one on
every nested call; any input of length `< fuel` that a fuel-free parser
accepts is accepted (the round-trip theorem instantiates this). -/
def parseJv : Nat → Str → Option (Json × Str)
  | 0, _ => none
  | fuel + 1, cs =>
    match skipWs cs with
    | [] => none
    | c :: r =>
      if c = 'n' then
        match r with
        | 'u' :: 'l' :: 'l' :: r2 => some (.null, r2)
        | _ => none
      else if c = 't' then
        match r with
        | 'r' :: 'u' :: 'e' :: r2 => some (.bool true, r2)
        | _ => none
      else if c = 'f' then
        match r with
        | 'a' :: 'l' :: 's' :: 'e' :: r2 => some (.bool false, r2)
        | _ => none
      else if c = '"' then
        match strBody r with
        | some (s, r2) => some (.str s, r2)
        | none => none
      else if c = '[' then
        if headIs ']' (skipWs r) then some (.arr [], (skipWs r).tail)
        else
          match parseItems fuel r with
          | some (xs, r2) => some (.arr xs, r2)
          | none => none
      else if c = '\x7b' then
        if headIs '\x7d' (skipWs r) then some (.obj [], (skipWs r).tail)
        else
          match parsePairs fuel r with
          | some (ms, r2) => some (.obj ms, r2)
          | none => none
      else if c = '-' then
        let p := takeDec r
        if p.1.isEmpty then none else some (.num (Int.negOfNat (decVal p.1)), p.2)
      else if isDec c then
        let p := takeDec r
        some (.num (Int.ofNat (decVal (c :: p.1))), p.2)
      else none

/-- Parses the one-or-more comma-separated elements of a non-empty array,
consuming the closing bracket. -/
def parseItems : Nat → Str → Option (List Json × Str)
  | 0, _ => none
  | fuel + 1, cs =>
    match parseJv fuel cs with
    | none => none
    | some (x, r) =>
      let w := skipWs r
      if headIs ',' w then
        match parseItems fuel w.tail with
        | some (xs, r2) => some (x :: xs, r2)
        | none => none
      else if headIs ']' w then some ([x], w.tail)
      else none

/-- Parses the one-or-more members of a non-empty object, consuming the
closing brace. -/
def parsePairs : Nat → Str → Option (List (Str × Json) × Str)
  | 0, _ => none
  | fuel + 1, cs =>
    let w := skipWs cs
    if headIs '"' w then
      match strBody w.tail with
      | none => none
      | some (k, r1) =>
        let w2 := skipWs r1
        if headIs ':' w2 then
          match parseJv fuel w2.tail with
          | none => none
          | some (v, r2) =>
            let w3 := skipWs r2
            if headIs ',' w3 then
              match parsePairs fuel w3.tail with
              | some (ms, r3) => some ((k, v) :: ms, r3)
              | none => none
            else if headIs '\x7d' w3 then some ([(k, v)], w3.tail)
            else none
        else none
    else none
end

/-- Models `JSON.parse` for the documents this model can represent:
parses one value and requires only whitespace after it.  The fuel
`cs.length + 1` outruns the input, so it never cuts off an accepting
parse of a document printed by `jsonStringify` (proved below). -/
def jsonParse (cs : Str) : Option Json :=
  match parseJv (cs.length + 1) cs with
  | some (j, r) => if (skipWs r).isEmpty then some j else none
  | none => none

/-- Specification form of the decimal digits of `n`, recursive on the
value; `natRepr` computes it (next lemma). -/
def natReprD (n : Nat) : Str :=
  if n < 10 then [decChar n]
  else natReprD (n / 10) ++ [decChar (n % 10)]
termination_by n
decreasing_by exact Nat.div_lt_self (by omega) (by omega)

/-- A remainder whose head cannot extend a digit run. -/
def numStop : Str → Bool
  | [] => true
  | c :: _ => !isDec c

/-! ### The Auth Guard (`authGuard`, part_000 lines 51-63) -/

/-- Outcome of the auth middleware: pass the request on, or short-circuit
with 401. -/
inductive GuardResult where
  | next
  | unauthorized
deriving DecidableEq

/-- Models lines 57-61 of `authGuard`: decoded credentials are split on
every `:` (JS `String.prototype.split`), `user` is the first chunk,
`pass` the second (`undefined` when absent), and the check is the strict
equality `ADMIN_CREDENTIALS[user] === pass`, where both sides may be
`undefined` — and `undefined === undefined` is `true`.  The credential
record is modelled as a plain map (no JS prototype chain; inherited
properties of a real JS object are non-strings and never compare equal
to a password or to `undefined`, so they make no difference here). -/
def authCheck (creds : Str → Option Str) (decoded : Str) : Bool :=
  let parts := splitOnChar ':' decoded
  let user := parts.headD []
  let pass := parts.get? 1
  creds user == pass

/-- Models `authGuard` (part_000 lines 51-63): `Basic` scheme required,
non-empty base64 token required, then the credential check on the
decoded token. -/
def authGuard (creds : Str → Option Str) (authHeader : Option Str) : GuardResult :=
  let header := authHeader.getD []
  let parts := splitOnChar ' ' header
  let scheme := parts.headD []
  let encoded := (parts.get? 1).getD []
  if scheme ≠ lit "Basic" ∨ encoded = [] then .unauthorized
  else if authCheck creds (base64Decode encoded) then .next
  else .unauthorized

/-! ### Body validation (`updateSchema`, part_000 lines 65-70) -/

/-- The fixed five-element page-key domain (part_000 line 6). -/
def PAGE_KEYS : List Str :=
  [lit "home", lit "services", lit "products", lit "get-started", lit "contact"]

/-- One zod issue: the offending field's name and a message (the model
keeps of `ZodError` just what `error.flatten()` exposes). -/
structure ZodIssue where
  path : Str
  message : Str
deriving DecidableEq

/-- The parsed PUT body. -/
structure UpdateBody where
  content : Option Json
  commit : Bool
  commitMessage : Option Str
  file : Str

/-- JS object field lookup on a parsed JSON object. -/
def lookupField (ms : List (Str × Json)) (k : Str) : Option Json :=
  (ms.find? (fun p => p.1 == k)).map (fun p => p.2)

/-- Models `updateSchema.parse` (part_000 lines 65-70) under zod v3
semantics: `z.any()` accepts a missing key, so `content` is effectively
optional and comes back as `undefined`; `commit` must be a boolean when
present and defaults to `false`; `commitMessage` must be a string when
present; `file` must be one of the five page keys and defaults to
`home`.  Issues are collected across fields, as `ZodError` does. -/
def updateSchemaParse (body : Json) : Except (List ZodIssue) UpdateBody :=
  match body with
  | .obj ms =>
    let contentF := lookupField ms (lit "content")
    let commitR : Except ZodIssue Bool :=
      match lookupField ms (lit "commit") with
      | none => .ok false
      | some (.bool b) => .ok b
      | some _ => .error ⟨lit "commit", lit "Expected boolean"⟩
    let msgR : Except ZodIssue (Option Str) :=
      match lookupField ms (lit "commitMessage") with
      | none => .ok none
      | some (.str s) => .ok (some s)
      | some _ => .error ⟨lit "commitMessage", lit "Expected string"⟩
    let fileR : Except ZodIssue Str :=
      match lookupField ms (lit "file") with
      | none => .ok (lit "home")
      | some (.str s) =>
        if PAGE_KEYS.contains s then .ok s
        else .error ⟨lit "file", lit "Invalid enum value"⟩
      | some _ => .error ⟨lit "file", lit "Invalid enum value"⟩
    match commitR, msgR, fileR with
    | .ok cb, .ok mo, .ok fk => .ok ⟨contentF, cb, mo, fk⟩
    | _, _, _ =>
      .error ((match commitR with | .error e => [e] | _ => []) ++
              (match msgR with | .error e => [e] | _ => []) ++
              (match fileR with | .error e => [e] | _ => []))
  | _ => .error [⟨[], lit "Expected object"⟩]

/-- Models `error.flatten()` on a `ZodError`, as the 400 body embeds it. -/
def zodFlatten (issues : List ZodIssue) : Json :=
  .obj [(lit "formErrors", .arr []),
        (lit "fieldErrors", .obj (issues.map (fun i => (i.path, Json.arr [Json.str i.message]))))]

/-! ### Environment, oracle and events -/

/-- The GitHub environment variables (part_000 lines 37-40). -/
structure GHEnv where
  token : Option Str
  owner : Option Str
  repo : Option Str
  branch : Str

/-- JS truthiness of an optional environment string. -/
def present : Option Str → Bool
  | none => false
  | some s => !s.isEmpty

/-- The `GITHUB_TOKEN && GITHUB_OWNER && GITHUB_REPO` guard used at
lines 93, 114 and 154. -/
def ghConfigured (e : GHEnv) : Bool := present e.token && present e.owner && present e.repo

/-- The GitHub contents-API GET response the network would deliver:
status, `content` field (base64) and optional `sha` field. -/
structure GHGetResp where
  status : Nat
  content : Str
  sha : Option Str

/-- The JSON body of the contents-API PUT issued by `commitToGitHub`
(part_000 lines 134-139). -/
structure PutBody where
  message : Str
  content : Str
  branch : Str
  sha : Option Str
deriving DecidableEq

/-- The PUT response: status and text body. -/
structure GHPutResp where
  status : Nat
  text : Str

/-- The request environment: what the GitHub API answers (per page key
and per PUT body), and whether the local `fs.writeFile` fails (with
which message). -/
structure Oracle where
  getResp : Str → GHGetResp
  putResp : PutBody → GHPutResp
  localWriteErr : Option Str

/-- `Response.ok` of `fetch`: status in the 2xx range. -/
def respOk (status : Nat) : Bool := 200 ≤ status && status < 300

/-- Store accesses performed while handling one request. -/
inductive Ev where
  | localRead (page : Str)
  | localWrite (page : Str)
  | ghGet (page : Str)
  | ghPut (page : Str) (body : PutBody)
deriving DecidableEq

/-! ### The Local Config Store (part_000 lines 76-90) -/

/-- The local config directory: one optional file content per page key. -/
abbrev LocalStore := Str → Option Str

/-- Models `writeToDisk` (part_000 lines 86-90): serialize the payload
with `JSON.stringify(payload, null, 2)` and overwrite `<page>.json`. -/
def writeToDisk (st : LocalStore) (page : Str) (payload : Json) : LocalStore :=
  fun p => if p = page then some (jsonStringify payload) else st p

/-- The Node `ENOENT` message a missing config file produces. -/
def enoentMsg (page : Str) : Str :=
  lit "ENOENT: no such file or directory, open " ++ page ++ lit ".json"

/-- The message of a `JSON.parse` failure (corrupt file or body). -/
def parseErrMsg : Str := lit "Unexpected token in JSON"

/-- Models `readFromDisk` (part_000 lines 80-84): read `<page>.json` and
`JSON.parse` it; a missing file or invalid JSON rejects with the
platform's error. -/
def readFromDisk (st : LocalStore) (page : Str) : Except Str Json :=
  match st page with
  | none => .error (enoentMsg page)
  | some raw =>
    match jsonParse raw with
    | some j => .ok j
    | none => .error parseErrMsg

/-! ### The Remote Config Store (part_000 lines 92-145) -/

/-- Models `readFromGitHub` (part_000 lines 92-111): env guard, GET, ok
check, then base64-decode the `content` field and `JSON.parse` it. -/
def readFromGitHub (env : GHEnv) (o : Oracle) (page : Str) : Except Str Json :=
  if !ghConfigured env then .error (lit "GitHub variables missing")
  else if !respOk (o.getResp page).status then
    .error (lit "GitHub read failed: " ++ natRepr (o.getResp page).status)
  else
    match jsonParse (base64Decode (o.getResp page).content) with
    | some j => .ok j
    | none => .error parseErrMsg

/-- The `TypeError` message Node raises when `undefined` reaches
`Buffer.from` / `fs.writeFile` (the `content`-absent paths). -/
def typeErrMsg : Str :=
  lit "The first argument must be of type string or an instance of Buffer"

/-- The default commit message synthesized from the page key (line 135). -/
def defaultCommitMsg (page : Str) : Str := lit "Update " ++ page ++ lit " config"

/-- Models `commitToGitHub` (part_000 lines 113-145): after the env
check, a GET discovers the current `sha` (`data?.sha`, kept only when
the GET response is ok — any non-ok response, not-found included, means
no sha), then a PUT carries the message (defaulted from the page key),
the base64-encoded pretty JSON content, the branch, and the sha when one
was found.  The event list records the requests issued, in order.  A
missing payload makes `JSON.stringify` yield `undefined`, so building
the PUT body throws after the GET and before any PUT. -/
def commitToGitHub (env : GHEnv) (o : Oracle) (page : Str) (payload : Option Json)
    (message : Option Str) : List Ev × Except Str PutBody :=
  if !ghConfigured env then ([], .error (lit "GitHub environment variables missing"))
  else
    let sha := if respOk (o.getResp page).status then (o.getResp page).sha else none
    match payload with
    | none => ([.ghGet page], .error typeErrMsg)
    | some d =>
      let pb : PutBody :=
        { message := message.getD (defaultCommitMsg page)
          content := base64Encode (jsonStringify d)
          branch := env.branch
          sha := sha }
      ([.ghGet page, .ghPut page pb],
        if respOk (o.putResp pb).status then .ok pb
        else
          .error (lit "GitHub commit failed: " ++ natRepr (o.putResp pb).status
            ++ [' '] ++ (o.putResp pb).text))

/-! ### The route handlers (part_000 lines 147-188) -/

/-- An HTTP response: status and JSON body. -/
structure Response where
  status : Nat
  body : Json

/-- What a handler run produces: the response, the local store afterward,
and the store accesses performed. -/
structure HandlerResult where
  resp : Response
  store : LocalStore
  events : List Ev

/-- A `{ error: m }` response body. -/
def errorBody (m : Str) : Json := .obj [(lit "error", .str m)]

/-- The `{ ok: true, committed: b }` success body of the PUT route. -/
def okBody (committed : Bool) : Json :=
  .obj [(lit "ok", .bool true), (lit "committed", .bool committed)]

/-- Models the GET `/auth/secret/config` handler (lines 147-164), after
the guard: default the key (`''` and absent both fall back to `home`),
reject keys outside `PAGE_KEYS` with 400, read the local store, fall
back to the Remote Config Store when the GitHub env is configured, and
surface any error message as a 500. -/
def getConfigHandler (env : GHEnv) (o : Oracle) (st : LocalStore)
    (queryFile : Option Str) : HandlerResult :=
  let key := match queryFile with
    | none => lit "home"
    | some s => if s.isEmpty then lit "home" else s
  if !(PAGE_KEYS.contains key) then
    { resp := ⟨400, errorBody (lit "Invalid config key")⟩, store := st, events := [] }
  else
    match readFromDisk st key with
    | .ok d =>
      { resp := ⟨200, .obj [(lit "config", d)]⟩, store := st, events := [.localRead key] }
    | .error e =>
      if ghConfigured env then
        match readFromGitHub env o key with
        | .ok d =>
          { resp := ⟨200, .obj [(lit "config", d)]⟩, store := st,
            events := [.localRead key, .ghGet key] }
        | .error m =>
          { resp := ⟨500, errorBody m⟩, store := st, events := [.localRead key, .ghGet key] }
      else { resp := ⟨500, errorBody e⟩, store := st, events := [.localRead key] }

/-- Models the PUT `/auth/secret/config` handler (lines 166-188), after
the guard: zod-validate the body (400 with the flattened error on
failure); with `commit` true, `commitToGitHub` first — its failure is a
500 and the local store is untouched — then a best-effort local write
whose failure is swallowed; with `commit` false, a local write whose
failure (including the `undefined`-content `TypeError`) is a 500. -/
def putConfigHandler (env : GHEnv) (o : Oracle) (st : LocalStore) (body : Json) :
    HandlerResult :=
  match updateSchemaParse body with
  | .error issues =>
    { resp := ⟨400, .obj [(lit "error", zodFlatten issues)]⟩, store := st, events := [] }
  | .ok u =>
    if u.commit then
      match commitToGitHub env o u.file u.content u.commitMessage with
      | (evs, .error m) => { resp := ⟨500, errorBody m⟩, store := st, events := evs }
      | (evs, .ok _) =>
        match u.content with
        | none => { resp := ⟨200, okBody true⟩, store := st, events := evs }
        | some d =>
          match o.localWriteErr with
          | some _ => { resp := ⟨200, okBody true⟩, store := st, events := evs }
          | none =>
            { resp := ⟨200, okBody true⟩, store := writeToDisk st u.file d,
              events := evs ++ [.localWrite u.file] }
    else
      match u.content with
      | none => { resp := ⟨500, errorBody typeErrMsg⟩, store := st, events := [] }
      | some d =>
        match o.localWriteErr with
        | some m => { resp := ⟨500, errorBody m⟩, store := st, events := [] }
        | none =>
          { resp := ⟨200, okBody false⟩, store := writeToDisk st u.file d,
            events := [.localWrite u.file] }

/-- A route run: response, store, events, and whether the handler behind
the guard was invoked at all. -/
structure RouteResult where
  resp : Response
  store : LocalStore
  events : List Ev
  handlerRan : Bool

/-- The GET route: `authGuard` then the GET handler. -/
def getConfigRoute (creds : Str → Option Str) (env : GHEnv) (o : Oracle) (st : LocalStore)
    (authHeader : Option Str) (queryFile : Option Str) : RouteResult :=
  match authGuard creds authHeader with
  | .unauthorized =>
    { resp := ⟨401, errorBody (lit "Unauthorized")⟩, store := st, events := [],
      handlerRan := false }
  | .next =>
    let h := getConfigHandler env o st queryFile
    { resp := h.resp, store := h.store, events := h.events, handlerRan := true }

/-- The PUT route: `authGuard` then the PUT handler. -/
def putConfigRoute (creds : Str → Option Str) (env : GHEnv) (o : Oracle) (st : LocalStore)
    (authHeader : Option Str) (body : Json) : RouteResult :=
  match authGuard creds authHeader with
  | .unauthorized =>
    { resp := ⟨401, errorBody (lit "Unauthorized")⟩, store := st, events := [],
      handlerRan := false }
  | .next =>
    let h := putConfigHandler env o st body
    { resp := h.resp, store := h.store, events := h.events, handlerRan := true }

/-! ### Demo fixtures used by witnesses and counterexamples -/

/-- A GitHub environment with no remote configured. -/
def envNone : GHEnv := { token := none, owner := none, repo := none, branch := lit "main" }

/-- A fully configured GitHub environment. -/
def envGH : GHEnv :=
  { token := some (lit "t"), owner := some (lit "o"), repo := some (lit "r"),
    branch := lit "main" }

/-- An oracle whose GET 404s and whose PUT fails; local writes succeed. -/
def demoOracle : Oracle :=
  { getResp := fun _ => ⟨404, [], none⟩, putResp := fun _ => ⟨500, []⟩, localWriteErr := none }

/-- An oracle whose GET succeeds (the base64 of `{}`, sha present) and
whose PUT fails; local writes succeed. -/
def oraclePutFails : Oracle :=
  { getResp := fun _ => ⟨200, lit "e30=", some (lit "abc")⟩,
    putResp := fun _ => ⟨500, []⟩, localWriteErr := none }

/-- An oracle whose GET and PUT succeed but whose local write fails. -/
def oracleLocalFails : Oracle :=
  { getResp := fun _ => ⟨200, lit "e30=", some (lit "abc")⟩,
    putResp := fun _ => ⟨200, []⟩, localWriteErr := some (lit "EACCES: permission denied") }

/-- The empty local store. -/
def emptyStore : LocalStore := fun _ => none

/-- The default credential record: `{ admin: 'change-me' }`. -/
def demoCreds : Str → Option Str :=
  fun u => if u = lit "admin" then some (lit "change-me") else none

/-- A PUT body requesting a commit of `{}` (to the default page `home`). -/
def demoCommitBody : Json :=
  Json.obj [(lit "content", Json.obj []), (lit "commit", Json.bool true)]

/-- The parse of `demoCommitBody`. -/
def demoUpdate : UpdateBody := ⟨some (Json.obj []), true, none, lit "home"⟩

/-- The PUT request body `commitToGitHub` sends for `demoCommitBody`
against an oracle whose GET returns sha `abc`. -/
def demoPutBody : PutBody :=
  ⟨defaultCommitMsg (lit "home"), base64Encode (jsonStringify (Json.obj [])),
   lit "main", some (lit "abc")⟩

/-- The error message of a commit whose PUT answered 500 with no body. -/
def demoCommitFailMsg : Str := lit "GitHub commit failed: " ++ natRepr 500 ++ [' '] ++ []

/-- A local store holding only `home.json` with content `{}`. -/
def storeHome : LocalStore := fun k => if k = lit "home" then some ['\x7b', '\x7d'] else none

/-- A PUT body that names `services` but omits `content`. -/
def c2Body : Json := Json.obj [(lit "file", Json.str (lit "services"))]

/-- A credential record whose only user has a password containing `:`. -/
def credsColon : Str → Option Str :=
  fun s => if s = lit "alice" then some (lit "a:b") else none

/-! ### Round-trip of the JSON codec: whitespace lemmas -/

theorem skipWs_ws {c : Char} (h : wsChar c = true) (cs : Str) :
    skipWs (c :: cs) = skipWs cs := by
  simp [skipWs, h]

theorem skipWs_not {c : Char} (h : wsChar c = false) (cs : Str) :
    skipWs (c :: cs) = c :: cs := by
  simp [skipWs, h]

theorem skipWs_pad (n : Nat) (cs : Str) : skipWs (pad n ++ cs) = skipWs cs := by
  induction n with
  | zero => rfl
  | succ m ih =>
    show skipWs (List.replicate (m + 1) ' ' ++ cs) = skipWs cs
    rw [List.replicate_succ, List.cons_append, skipWs_ws (by decide)]
    exact ih

theorem parseJv_ws {c : Char} (h : wsChar c = true) (fuel : Nat) (cs : Str) :
    parseJv fuel (c :: cs) = parseJv fuel cs := by
  cases fuel with
  | zero => rfl
  | succ f => simp only [parseJv, skipWs_ws h]

theorem parseJv_pad (n fuel : Nat) (cs : Str) :
    parseJv fuel (pad n ++ cs) = parseJv fuel cs := by
  cases fuel with
  | zero => rfl
  | succ f => simp only [parseJv, skipWs_pad]

theorem parseItems_ws {c : Char} (h : wsChar c = true) (fuel : Nat) (cs : Str) :
    parseItems fuel (c :: cs) = parseItems fuel cs := by
  cases fuel with
  | zero => rfl
  | succ f => simp only [parseItems, parseJv_ws h]

theorem parsePairs_ws {c : Char} (h : wsChar c = true) (fuel : Nat) (cs : Str) :
    parsePairs fuel (c :: cs) = parsePairs fuel cs := by
  cases fuel with
  | zero => rfl
  | succ f => simp only [parsePairs, skipWs_ws h]

/-! ### Round-trip: decimal digits -/


theorem natReprAux_spec : ∀ fuel n acc, 0 < fuel → n < 10 ^ fuel →
    natReprAux fuel n acc = natReprD n ++ acc := by
  intro fuel
  induction fuel with
  | zero => omega
  | succ f ih =>
    intro n acc _ hlt
    rw [natReprD]
    by_cases h10 : n < 10
    · simp [natReprAux, h10]
    · have hf : 0 < f := by
        rcases Nat.eq_zero_or_pos f with h0 | h0
        · subst h0; simp at hlt; omega
        · exact h0
      have hdiv : n / 10 < 10 ^ f := by
        rw [Nat.div_lt_iff_lt_mul (by omega)]
        calc n < 10 ^ (f + 1) := hlt
        _ = 10 ^ f * 10 := by rw [Nat.pow_succ]
      simp only [natReprAux, if_neg h10]
      rw [ih (n / 10) (decChar (n % 10) :: acc) hf hdiv, List.append_assoc]
      rfl

theorem natRepr_eq (n : Nat) : natRepr n = natReprD n := by
  have h1 : n < 10 ^ (n + 1) := by
    calc n < 10 ^ n := Nat.lt_pow_self (by omega) n
    _ ≤ 10 ^ (n + 1) := Nat.pow_le_pow_right (by omega) (by omega)
  rw [natRepr, natReprAux_spec (n + 1) n [] (by omega) h1, List.append_nil]

theorem decChar_dec {d : Nat} (h : d < 10) : isDec (decChar d) = true := by
  interval_cases d <;> decide

theorem decChar_val {d : Nat} (h : d < 10) : (decChar d).toNat - 48 = d := by
  interval_cases d <;> decide

theorem natReprD_ne_nil (n : Nat) : natReprD n ≠ [] := by
  rw [natReprD]
  by_cases h : n < 10 <;> simp [h]

theorem natReprD_dec (n : Nat) : ∀ c ∈ natReprD n, isDec c = true := by
  induction n using Nat.strongRecOn with
  | _ n ih =>
    intro c hc
    rw [natReprD] at hc
    by_cases h : n < 10
    · rw [if_pos h, List.mem_singleton] at hc
      exact hc ▸ decChar_dec h
    · rw [if_neg h, List.mem_append] at hc
      rcases hc with hc | hc
      · have hlt : n / 10 < n := Nat.div_lt_self (by omega) (by omega)
        exact ih _ hlt c hc
      · rw [List.mem_singleton] at hc
        exact hc ▸ decChar_dec (Nat.mod_lt _ (by omega))

theorem decValAux_append (acc : Nat) (xs ys : Str) :
    decValAux acc (xs ++ ys) = decValAux (decValAux acc xs) ys := by
  induction xs generalizing acc with
  | nil => rfl
  | cons c t ih => exact ih (acc * 10 + (c.toNat - 48))

theorem decValAux_nil (acc : Nat) : decValAux acc [] = acc := rfl

theorem decValAux_cons (acc : Nat) (c : Char) (r : Str) :
    decValAux acc (c :: r) = decValAux (acc * 10 + (c.toNat - 48)) r := rfl

theorem decVal_natReprD (n : Nat) : decVal (natReprD n) = n := by
  induction n using Nat.strongRecOn with
  | _ n ih =>
    rw [natReprD]
    by_cases h : n < 10
    · rw [if_pos h]
      show decValAux 0 [decChar n] = n
      rw [decValAux_cons, decValAux_nil, decChar_val h]
      omega
    · rw [if_neg h]
      show decValAux 0 (natReprD (n / 10) ++ [decChar (n % 10)]) = n
      rw [decValAux_append]
      have hrec : decValAux 0 (natReprD (n / 10)) = n / 10 :=
        ih (n / 10) (Nat.div_lt_self (by omega) (by omega))
      rw [hrec, decValAux_cons, decValAux_nil, decChar_val (Nat.mod_lt _ (by omega))]
      omega

theorem natReprD_head (n : Nat) :
    ∃ c t, natReprD n = c :: t ∧ isDec c = true := by
  cases h : natReprD n with
  | nil => exact absurd h (natReprD_ne_nil n)
  | cons c t =>
    exact ⟨c, t, rfl, natReprD_dec n c (h ▸ List.mem_cons_self c t)⟩


theorem takeDec_stop {cs : Str} (h : numStop cs = true) : takeDec cs = ([], cs) := by
  cases cs with
  | nil => rfl
  | cons c t =>
    have hc : isDec c = false := by
      simpa [numStop] using h
    simp [takeDec, hc]

theorem takeDec_run {ds : Str} (hds : ∀ c ∈ ds, isDec c = true) {rest : Str}
    (hrest : numStop rest = true) : takeDec (ds ++ rest) = (ds, rest) := by
  induction ds with
  | nil => simpa using takeDec_stop hrest
  | cons c t ih =>
    have hc : isDec c = true := hds c (List.mem_cons_self c t)
    have ht := ih (fun x hx => hds x (List.mem_cons_of_mem c hx))
    simp [takeDec, hc, ht]

/-! ### Round-trip: character classes -/

theorem isDec_not_ws {c : Char} (h : isDec c = true) : wsChar c = false := by
  by_contra hws
  rw [Bool.not_eq_false] at hws
  simp only [wsChar, Bool.or_eq_true, decide_eq_true_eq] at hws
  rcases hws with ((h1 | h1) | h1) | h1 <;> (subst h1; exact absurd h (by decide))

theorem isDec_ne {c : Char} (h : isDec c = true) :
    c ≠ 'n' ∧ c ≠ 't' ∧ c ≠ 'f' ∧ c ≠ '"' ∧ c ≠ '[' ∧ c ≠ '\x7b' ∧ c ≠ '-' ∧
      c ≠ ']' ∧ c ≠ '\x7d' := by
  refine ⟨?_, ?_, ?_, ?_, ?_, ?_, ?_, ?_, ?_⟩ <;>
    (intro h1; subst h1; exact absurd h (by decide))

theorem headIs_cons_ne {c d : Char} (h : d ≠ c) (t : Str) : headIs c (d :: t) = false := by
  simp [headIs, h]

theorem headIs_cons_self (c : Char) (t : Str) : headIs c (c :: t) = true := by
  simp [headIs]

/-! ### Round-trip: string escapes -/

theorem hexVal_hexChar {v : Nat} (h : v < 16) : hexVal (hexChar v) = some v := by
  interval_cases v <;> decide

theorem strBody_escChar (c : Char) (z : Str) :
    strBody (escChar c ++ z) = (strBody z).map (fun p => (c :: p.1, p.2)) := by
  by_cases h1 : c = '"'
  · subst h1
    rw [show escChar '"' ++ z = '\\' :: '"' :: z by rfl, strBody.eq_def]
    simp [unescNamed]
    cases strBody z <;> rfl
  by_cases h2 : c = '\\'
  · subst h2
    rw [show escChar '\\' ++ z = '\\' :: '\\' :: z by rfl, strBody.eq_def]
    simp [unescNamed]
    cases strBody z <;> rfl
  by_cases h3 : c = '\n'
  · subst h3
    rw [show escChar '\n' ++ z = '\\' :: 'n' :: z by rfl, strBody.eq_def]
    simp [unescNamed]
    cases strBody z <;> rfl
  by_cases h4 : c = '\t'
  · subst h4
    rw [show escChar '\t' ++ z = '\\' :: 't' :: z by rfl, strBody.eq_def]
    simp [unescNamed]
    cases strBody z <;> rfl
  by_cases h5 : c = '\r'
  · subst h5
    rw [show escChar '\r' ++ z = '\\' :: 'r' :: z by rfl, strBody.eq_def]
    simp [unescNamed]
    cases strBody z <;> rfl
  by_cases h6 : c = Char.ofNat 8
  · subst h6
    rw [show escChar (Char.ofNat 8) ++ z = '\\' :: 'b' :: z by rfl, strBody.eq_def]
    simp [unescNamed]
    cases strBody z <;> rfl
  by_cases h7 : c = Char.ofNat 12
  · subst h7
    rw [show escChar (Char.ofNat 12) ++ z = '\\' :: 'f' :: z by rfl, strBody.eq_def]
    simp [unescNamed]
    cases strBody z <;> rfl
  by_cases h8 : c.toNat < 32
  · have hesc : escChar c ++ z
        = '\\' :: 'u' :: '0' :: '0' :: hexChar (c.toNat / 16) :: hexChar (c.toNat % 16) :: z := by
      simp [escChar, h1, h2, h3, h4, h5, h6, h7, h8]
    rw [hesc, strBody.eq_def]
    have hhi : hexVal (hexChar (c.toNat / 16)) = some (c.toNat / 16) :=
      hexVal_hexChar (by omega)
    have hlo : hexVal (hexChar (c.toNat % 16)) = some (c.toNat % 16) :=
      hexVal_hexChar (Nat.mod_lt _ (by omega))
    simp only [hhi, hlo, show hexVal '0' = some 0 from rfl]
    simp
    have hv : Char.ofNat (c.toNat / 16 * 16 + c.toNat % 16) = c := by
      rw [show c.toNat / 16 * 16 + c.toNat % 16 = c.toNat from by omega, Char.ofNat_toNat]
    simp only [hv]
    cases strBody z <;> rfl
  · have hesc : escChar c ++ z = c :: z := by
      simp [escChar, h1, h2, h3, h4, h5, h6, h7, h8]
    rw [hesc, strBody.eq_def]
    simp [h1, h2]
    cases strBody z <;> rfl

theorem strBody_quoted (s rest : Str) :
    strBody (escBody s ++ '"' :: rest) = some (s, rest) := by
  induction s with
  | nil =>
    rw [show escBody [] ++ '"' :: rest = '"' :: rest by rfl, strBody.eq_def]
    simp
  | cons c t ih =>
    rw [escBody, List.append_assoc, strBody_escChar, ih]
    rfl

/-! ### Round-trip: the head of a rendered value -/

theorem pretty_head (ind : Nat) (j : Json) :
    ∃ c t, pretty ind j = c :: t ∧ wsChar c = false ∧ c ≠ ']' ∧ c ≠ '\x7d' := by
  cases j with
  | null =>
    simp only [pretty]
    exact ⟨'n', _, rfl, by decide, by decide, by decide⟩
  | bool b =>
    cases b <;> simp only [pretty] <;>
      first
      | exact ⟨'t', _, rfl, by decide, by decide, by decide⟩
      | exact ⟨'f', _, rfl, by decide, by decide, by decide⟩
  | str s =>
    simp only [pretty, quoteStr]
    exact ⟨'"', _, rfl, by decide, by decide, by decide⟩
  | arr es =>
    cases es <;> simp only [pretty] <;>
      exact ⟨'[', _, rfl, by decide, by decide, by decide⟩
  | obj ms =>
    cases ms <;> simp only [pretty] <;>
      exact ⟨'\x7b', _, rfl, by decide, by decide, by decide⟩
  | num n =>
    cases n with
    | ofNat m =>
      obtain ⟨c0, t0, h0, hdec⟩ := natReprD_head m
      obtain ⟨_, _, _, _, _, _, _, hrb, hcb⟩ := isDec_ne hdec
      refine ⟨c0, t0, ?_, isDec_not_ws hdec, hrb, hcb⟩
      simp only [pretty, intRepr, natRepr_eq]
      exact h0
    | negSucc m =>
      simp only [pretty, intRepr]
      exact ⟨'-', _, rfl, by decide, by decide, by decide⟩

/-! ### Round-trip: container decompositions -/

theorem prettyItems_split (ind : Nat) (x : Json) (xs : List Json) :
    ∃ T, prettyItems ind x xs = pad ind ++ (pretty ind x ++ T) := by
  cases xs with
  | nil => exact ⟨[], by simp [prettyItems]⟩
  | cons y ys => exact ⟨',' :: '\n' :: prettyItems ind y ys, by simp [prettyItems]⟩

theorem prettyPairs_split (ind : Nat) (k : Str) (v : Json) (ms : List (Str × Json)) :
    ∃ T, prettyPairs ind (k, v) ms
      = pad ind ++ ('"' :: (escBody k ++ ('"' :: (':' :: ' ' :: (pretty ind v ++ T))))) := by
  cases ms with
  | nil =>
    refine ⟨[], ?_⟩
    simp [prettyPairs, quoteStr, List.append_assoc]
  | cons m' ms' =>
    refine ⟨',' :: '\n' :: prettyPairs ind m' ms', ?_⟩
    simp [prettyPairs, quoteStr, List.append_assoc]

/-- After skipping whitespace, input that continues with a rendered value
is headed by that value's first character. -/
theorem skipWs_pretty (ind : Nat) (j : Json) (x : Str) :
    skipWs (pretty ind j ++ x) = pretty ind j ++ x := by
  obtain ⟨c, t, h, hws, _, _⟩ := pretty_head ind j
  rw [h, List.cons_append, skipWs_not hws]

/-! ### The codec round-trip -/

mutual
theorem rt_val : ∀ (j : Json) (ind : Nat) (rest : Str) (fuel : Nat),
    (pretty ind j).length < fuel → numStop rest = true →
    parseJv fuel (pretty ind j ++ rest) = some (j, rest)
  | .null, ind, rest, fuel, hf, _ => by
    cases fuel with
    | zero => exact absurd hf (Nat.not_lt_zero _)
    | succ f =>
      rw [show pretty ind Json.null ++ rest = 'n' :: 'u' :: 'l' :: 'l' :: rest by
        simp [pretty]]
      rfl
  | .bool true, ind, rest, fuel, hf, _ => by
    cases fuel with
    | zero => exact absurd hf (Nat.not_lt_zero _)
    | succ f =>
      rw [show pretty ind (Json.bool true) ++ rest = 't' :: 'r' :: 'u' :: 'e' :: rest by
        simp [pretty]]
      rfl
  | .bool false, ind, rest, fuel, hf, _ => by
    cases fuel with
    | zero => exact absurd hf (Nat.not_lt_zero _)
    | succ f =>
      rw [show pretty ind (Json.bool false) ++ rest
          = 'f' :: 'a' :: 'l' :: 's' :: 'e' :: rest by simp [pretty]]
      rfl
  | .num (.ofNat m), ind, rest, fuel, hf, hr => by
    cases fuel with
    | zero => exact absurd hf (Nat.not_lt_zero _)
    | succ f =>
      obtain ⟨c0, t0, h0, hdec⟩ := natReprD_head m
      obtain ⟨hn, ht, hfc, hq, hlb, hob, hms, _, _⟩ := isDec_ne hdec
      have hws := isDec_not_ws hdec
      have hpre : pretty ind (Json.num (Int.ofNat m)) = c0 :: t0 := by
        simp only [pretty, intRepr, natRepr_eq]
        exact h0
      have hdigits : ∀ x ∈ t0, isDec x = true := fun x hx =>
        natReprD_dec m x (by rw [h0]; exact List.mem_cons_of_mem c0 hx)
      have htd : takeDec (t0 ++ rest) = (t0, rest) := takeDec_run hdigits hr
      have hval : decVal (c0 :: t0) = m := by rw [← h0]; exact decVal_natReprD m
      rw [hpre, List.cons_append]
      simp only [parseJv]
      rw [skipWs_not hws]
      simp [hn, ht, hfc, hq, hlb, hob, hms, hdec, htd, hval]
  | .num (.negSucc m), ind, rest, fuel, hf, hr => by
    cases fuel with
    | zero => exact absurd hf (Nat.not_lt_zero _)
    | succ f =>
      have hpre : pretty ind (Json.num (Int.negSucc m)) = '-' :: natReprD (m + 1) := by
        simp only [pretty, intRepr, natRepr_eq]
      have htd : takeDec (natReprD (m + 1) ++ rest) = (natReprD (m + 1), rest) :=
        takeDec_run (natReprD_dec (m + 1)) hr
      have hne : (natReprD (m + 1)).isEmpty = false := by
        cases hh : natReprD (m + 1) with
        | nil => exact absurd hh (natReprD_ne_nil _)
        | cons a b => rfl
      rw [hpre, List.cons_append]
      simp only [parseJv]
      rw [skipWs_not (by decide)]
      simp [htd, hne, decVal_natReprD, Int.negOfNat]
  | .str s, ind, rest, fuel, hf, _ => by
    cases fuel with
    | zero => exact absurd hf (Nat.not_lt_zero _)
    | succ f =>
      rw [show pretty ind (Json.str s) ++ rest = '"' :: (escBody s ++ '"' :: rest) by
        simp [pretty, quoteStr]]
      simp only [parseJv]
      rw [skipWs_not (by decide)]
      simp [strBody_quoted]
  | .arr [], ind, rest, fuel, hf, _ => by
    cases fuel with
    | zero => exact absurd hf (Nat.not_lt_zero _)
    | succ f =>
      rw [show pretty ind (Json.arr []) ++ rest = '[' :: ']' :: rest by simp [pretty]]
      rfl
  | .obj [], ind, rest, fuel, hf, _ => by
    cases fuel with
    | zero => exact absurd hf (Nat.not_lt_zero _)
    | succ f =>
      rw [show pretty ind (Json.obj []) ++ rest = '\x7b' :: '\x7d' :: rest by simp [pretty]]
      rfl
  | .arr (x :: xs), ind, rest, fuel, hf, _ => by
    cases fuel with
    | zero => exact absurd hf (Nat.not_lt_zero _)
    | succ f =>
      have hsplit : pretty ind (Json.arr (x :: xs)) ++ rest
          = '[' :: '\n' :: (prettyItems (ind + 2) x xs ++ ('\n' :: (pad ind ++ (']' :: rest)))) := by
        simp [pretty, List.append_assoc]
      have hflen : (prettyItems (ind + 2) x xs).length + 1 < f := by
        have h2 : (pretty ind (Json.arr (x :: xs))).length
            = (prettyItems (ind + 2) x xs).length + ind + 4 := by
          simp [pretty, List.length_append, List.length_cons, pad, List.length_replicate]
          omega
        rw [h2] at hf
        omega
      obtain ⟨c0, t0, h0, hws0, hrb0, hcb0⟩ := pretty_head (ind + 2) x
      obtain ⟨T, hT⟩ := prettyItems_split (ind + 2) x xs
      have hskip : skipWs (prettyItems (ind + 2) x xs ++ ('\n' :: (pad ind ++ (']' :: rest))))
          = pretty (ind + 2) x ++ (T ++ ('\n' :: (pad ind ++ (']' :: rest)))) := by
        rw [hT]
        simp only [List.append_assoc]
        rw [skipWs_pad, skipWs_pretty]
      rw [hsplit]
      simp only [parseJv]
      rw [skipWs_not (by decide)]
      have hhead : headIs ']'
          (skipWs ('\n' :: (prettyItems (ind + 2) x xs ++ ('\n' :: (pad ind ++ (']' :: rest))))))
          = false := by
        rw [skipWs_ws (by decide), hskip, h0, List.cons_append]
        exact headIs_cons_ne hrb0 _
      have hitems := rt_items x xs (ind + 2) ind rest f hflen
      simp [hhead, parseItems_ws (show wsChar '\n' = true by decide), hitems]
  | .obj ((k, v) :: ms), ind, rest, fuel, hf, _ => by
    cases fuel with
    | zero => exact absurd hf (Nat.not_lt_zero _)
    | succ f =>
      have hsplit : pretty ind (Json.obj ((k, v) :: ms)) ++ rest
          = '\x7b' :: '\n' :: (prettyPairs (ind + 2) (k, v) ms ++ ('\n' :: (pad ind ++ ('\x7d' :: rest)))) := by
        simp [pretty, List.append_assoc]
      have hflen : (prettyPairs (ind + 2) (k, v) ms).length + 1 < f := by
        have h2 : (pretty ind (Json.obj ((k, v) :: ms))).length
            = (prettyPairs (ind + 2) (k, v) ms).length + ind + 4 := by
          simp [pretty, List.length_append, List.length_cons, pad, List.length_replicate]
          omega
        rw [h2] at hf
        omega
      obtain ⟨T, hT⟩ := prettyPairs_split (ind + 2) k v ms
      have hhead : headIs '\x7d'
          (skipWs ('\n' :: (prettyPairs (ind + 2) (k, v) ms ++ ('\n' :: (pad ind ++ ('\x7d' :: rest))))))
          = false := by
        rw [skipWs_ws (by decide), hT]
        simp only [List.append_assoc, List.cons_append]
        rw [skipWs_pad, skipWs_not (show wsChar '"' = false by decide)]
        exact headIs_cons_ne (by decide) _
      have hpairs := rt_pairs (k, v) ms (ind + 2) ind rest f hflen
      rw [hsplit]
      simp only [parseJv]
      rw [skipWs_not (by decide)]
      simp [hhead, parsePairs_ws (show wsChar '\n' = true by decide), hpairs]
termination_by j _ _ _ _ _ => sizeOf j

theorem rt_items : ∀ (x : Json) (xs : List Json) (ind i2 : Nat) (rest : Str) (fuel : Nat),
    (prettyItems ind x xs).length + 1 < fuel →
    parseItems fuel (prettyItems ind x xs ++ ('\n' :: (pad i2 ++ (']' :: rest))))
      = some (x :: xs, rest)
  | x, [], ind, i2, rest, fuel, hf => by
    cases fuel with
    | zero => exact absurd hf (Nat.not_lt_zero _)
    | succ f =>
      have hlen : (pretty ind x).length < f := by
        simp only [prettyItems, List.length_append, pad, List.length_replicate] at hf
        omega
      have hv := rt_val x ind ('\n' :: (pad i2 ++ (']' :: rest))) f hlen rfl
      have harg : prettyItems ind x [] ++ ('\n' :: (pad i2 ++ (']' :: rest)))
          = pad ind ++ (pretty ind x ++ ('\n' :: (pad i2 ++ (']' :: rest)))) := by
        simp [prettyItems, List.append_assoc]
      have hw : skipWs ('\n' :: (pad i2 ++ (']' :: rest))) = ']' :: rest := by
        rw [skipWs_ws (by decide), skipWs_pad, skipWs_not (by decide)]
      rw [harg]
      simp only [parseItems]
      rw [parseJv_pad, hv]
      simp [hw, headIs_cons_ne (show (']' : Char) ≠ ',' by decide), headIs_cons_self]
  | x, y :: ys, ind, i2, rest, fuel, hf => by
    cases fuel with
    | zero => exact absurd hf (Nat.not_lt_zero _)
    | succ f =>
      have hlen : (pretty ind x).length < f := by
        simp only [prettyItems, List.length_append, List.length_cons, pad,
          List.length_replicate] at hf
        omega
      have hlen2 : (prettyItems ind y ys).length + 1 < f := by
        simp only [prettyItems, List.length_append, List.length_cons, pad,
          List.length_replicate] at hf
        omega
      have hv := rt_val x ind
        (',' :: '\n' :: (prettyItems ind y ys ++ ('\n' :: (pad i2 ++ (']' :: rest))))) f hlen
        rfl
      have hrec := rt_items y ys ind i2 rest f hlen2
      have harg : prettyItems ind x (y :: ys) ++ ('\n' :: (pad i2 ++ (']' :: rest)))
          = pad ind ++ (pretty ind x
              ++ (',' :: '\n' :: (prettyItems ind y ys ++ ('\n' :: (pad i2 ++ (']' :: rest)))))) := by
        simp [prettyItems, List.append_assoc]
      rw [harg]
      simp only [parseItems]
      rw [parseJv_pad, hv]
      simp only [skipWs_not (show wsChar ',' = false by decide), headIs_cons_self,
        List.tail_cons, if_pos]
      rw [parseItems_ws (show wsChar '\n' = true by decide), hrec]
termination_by x xs _ _ _ _ _ => sizeOf x + sizeOf xs

theorem rt_pairs : ∀ (m : Str × Json) (ms : List (Str × Json)) (ind i2 : Nat) (rest : Str)
    (fuel : Nat),
    (prettyPairs ind m ms).length + 1 < fuel →
    parsePairs fuel (prettyPairs ind m ms ++ ('\n' :: (pad i2 ++ ('\x7d' :: rest))))
      = some (m :: ms, rest)
  | (k, v), [], ind, i2, rest, fuel, hf => by
    cases fuel with
    | zero => exact absurd hf (Nat.not_lt_zero _)
    | succ f =>
      have hlen : (pretty ind v).length < f := by
        simp only [prettyPairs, quoteStr, List.length_append, List.length_cons, pad,
          List.length_replicate] at hf
        omega
      have hv := rt_val v ind ('\n' :: (pad i2 ++ ('\x7d' :: rest))) f hlen rfl
      have harg : prettyPairs ind (k, v) [] ++ ('\n' :: (pad i2 ++ ('\x7d' :: rest)))
          = pad ind ++ ('"' :: (escBody k
              ++ ('"' :: (':' :: ' ' :: (pretty ind v ++ ('\n' :: (pad i2 ++ ('\x7d' :: rest)))))))) := by
        simp [prettyPairs, quoteStr, List.append_assoc]
      have hw : skipWs ('\n' :: (pad i2 ++ ('\x7d' :: rest))) = '\x7d' :: rest := by
        rw [skipWs_ws (by decide), skipWs_pad, skipWs_not (by decide)]
      rw [harg]
      simp only [parsePairs]
      rw [skipWs_pad, skipWs_not (by decide)]
      simp only [headIs_cons_self, if_pos, List.tail_cons]
      rw [strBody_quoted]
      simp only [skipWs_not (show wsChar ':' = false by decide), headIs_cons_self,
        List.tail_cons, Option.map_some]
      rw [parseJv_ws (show wsChar ' ' = true by decide), hv]
      simp [hw, headIs_cons_ne (show '\x7d' ≠ ',' by decide), headIs_cons_self]
  | (k, v), m' :: ms', ind, i2, rest, fuel, hf => by
    cases fuel with
    | zero => exact absurd hf (Nat.not_lt_zero _)
    | succ f =>
      have hlen : (pretty ind v).length < f := by
        simp only [prettyPairs, quoteStr, List.length_append, List.length_cons, pad,
          List.length_replicate] at hf
        omega
      have hlen2 : (prettyPairs ind m' ms').length + 1 < f := by
        simp only [prettyPairs, quoteStr, List.length_append, List.length_cons, pad,
          List.length_replicate] at hf
        omega
      have hv := rt_val v ind
        (',' :: '\n' :: (prettyPairs ind m' ms' ++ ('\n' :: (pad i2 ++ ('\x7d' :: rest))))) f hlen
        rfl
      have hrec := rt_pairs m' ms' ind i2 rest f hlen2
      have harg : prettyPairs ind (k, v) (m' :: ms') ++ ('\n' :: (pad i2 ++ ('\x7d' :: rest)))
          = pad ind ++ ('"' :: (escBody k
              ++ ('"' :: (':' :: ' ' :: (pretty ind v
                ++ (',' :: '\n' :: (prettyPairs ind m' ms' ++ ('\n' :: (pad i2 ++ ('\x7d' :: rest)))))))))) := by
        simp [prettyPairs, quoteStr, List.append_assoc]
      rw [harg]
      simp only [parsePairs]
      rw [skipWs_pad, skipWs_not (by decide)]
      simp only [headIs_cons_self, if_pos, List.tail_cons]
      rw [strBody_quoted]
      simp only [skipWs_not (show wsChar ':' = false by decide), headIs_cons_self,
        List.tail_cons, Option.map_some]
      rw [parseJv_ws (show wsChar ' ' = true by decide), hv]
      simp only [skipWs_not (show wsChar ',' = false by decide), headIs_cons_self,
        List.tail_cons, if_pos]
      rw [parsePairs_ws (show wsChar '\n' = true by decide), hrec]
termination_by m ms _ _ _ _ _ => sizeOf m + sizeOf ms
end

/-- The full codec round-trip: parsing a pretty-printed document recovers
it exactly. -/
theorem jsonParse_stringify (j : Json) : jsonParse (jsonStringify j) = some j := by
  have h := rt_val j 0 [] ((pretty 0 j).length + 1) (by omega) (by decide)
  rw [List.append_nil] at h
  rw [jsonParse, jsonStringify]
  rw [h]
  rfl

/-! ### `String.prototype.split` facts -/

theorem splitOnChar_ne_nil (sep : Char) (cs : Str) : splitOnChar sep cs ≠ [] := by
  cases cs with
  | nil => simp [splitOnChar]
  | cons c t =>
    simp only [splitOnChar]
    cases h : splitOnChar sep t with
    | nil => simp
    | cons s ss => by_cases hc : c = sep <;> simp [hc]

theorem splitOnChar_no_sep {sep : Char} : ∀ {cs : Str}, sep ∉ cs → splitOnChar sep cs = [cs]
  | [], _ => rfl
  | c :: t, h => by
    have hc : ¬c = sep := fun hq => h (hq ▸ List.mem_cons_self c t)
    have ht : splitOnChar sep t = [t] :=
      splitOnChar_no_sep (fun hq => h (List.mem_cons_of_mem c hq))
    simp only [splitOnChar]
    rw [ht]
    simp [hc]

theorem mem_splitOnChar {sep : Char} : ∀ {cs l : Str}, l ∈ splitOnChar sep cs → sep ∉ l := by
  intro cs
  induction cs with
  | nil =>
    intro l h
    simp [splitOnChar] at h
    subst h
    exact List.not_mem_nil sep
  | cons c t ih =>
    intro l h
    simp only [splitOnChar] at h
    cases hsp : splitOnChar sep t with
    | nil => exact absurd hsp (splitOnChar_ne_nil sep t)
    | cons s ss =>
      rw [hsp] at h
      replace h : l ∈ (if c = sep then [] :: s :: ss else (c :: s) :: ss) := h
      by_cases hc : c = sep
      · rw [if_pos hc] at h
        cases h with
        | head => exact List.not_mem_nil sep
        | tail _ h => exact ih (hsp ▸ h)
      · rw [if_neg hc] at h
        cases h with
        | head =>
          intro hmem
          cases hmem with
          | head => exact hc rfl
          | tail _ hmem => exact ih (hsp ▸ List.mem_cons_self s ss) hmem
        | tail _ h => exact ih (hsp ▸ List.mem_cons_of_mem s h)

/-! ### Claim theorems -/

/-- Claim C7: writing a document `D` to a valid page key `K` with
`commit=false` and then reading `K` locally returns a value deep-equal
to `D` — the serialize/parse round-trip through the local store is the
identity. -/
theorem c7_write_read_roundtrip (st : LocalStore) (k : Str) (d : Json)
    (_hk : k ∈ PAGE_KEYS) :
    readFromDisk (writeToDisk st k d) k = .ok d := by
  simp [readFromDisk, writeToDisk, jsonParse_stringify]

/-- Witness for C7 at the spec's own scenario: the contact page and the
document `{"phone":"555-0100"}`. -/
theorem c7_witness :
    (lit "contact") ∈ PAGE_KEYS
  ∧ readFromDisk
      (writeToDisk emptyStore (lit "contact")
        (Json.obj [(lit "phone", Json.str (lit "555-0100"))]))
      (lit "contact")
      = .ok (Json.obj [(lit "phone", Json.str (lit "555-0100"))]) :=
  ⟨by decide, c7_write_read_roundtrip emptyStore (lit "contact") _ (by decide)⟩

/-- Claim C8: writing the same document twice to the same page key
leaves the local store exactly as writing it once does. -/
theorem c8_write_idempotent (st : LocalStore) (k : Str) (d : Json) :
    writeToDisk (writeToDisk st k d) k d = writeToDisk st k d := by
  funext p
  simp only [writeToDisk]
  by_cases h : p = k <;> simp [h]

/-- The requests `commitToGitHub` issues are GitHub requests only: it
never touches the local store. -/
theorem commitToGitHub_events (env : GHEnv) (o : Oracle) (page : Str)
    (payload : Option Json) (message : Option Str) (p : Str) :
    Ev.localWrite p ∉ (commitToGitHub env o page payload message).1 := by
  rw [commitToGitHub.eq_def]
  by_cases h : ghConfigured env
  · simp only [h]
    cases payload with
    | none => simp
    | some d => simp
  · simp [h]

/-- Claim C4: with `commit=true`, a Remote Config Store failure fails the
whole operation with a 500 carrying the remote error, the local store is
exactly its pre-request state, and no local write happens. -/
theorem c4_remote_failure_aborts (env : GHEnv) (o : Oracle) (st : LocalStore) (body : Json)
    (u : UpdateBody) (evs : List Ev) (m : Str)
    (hparse : updateSchemaParse body = .ok u)
    (hcommit : u.commit = true)
    (hfail : commitToGitHub env o u.file u.content u.commitMessage = (evs, .error m)) :
    putConfigHandler env o st body
      = { resp := ⟨500, errorBody m⟩, store := st, events := evs }
    ∧ ∀ p, Ev.localWrite p ∉ evs := by
  constructor
  · simp only [putConfigHandler, hparse, hcommit, if_pos, hfail]
  · intro p hmem
    have := commitToGitHub_events env o u.file u.content u.commitMessage p
    rw [hfail] at this
    exact this hmem

/-- Witness for C4: a commit of `{}` to `home` against a remote whose
PUT answers 500. -/
theorem c4_witness :
    updateSchemaParse demoCommitBody = .ok demoUpdate
  ∧ demoUpdate.commit = true
  ∧ commitToGitHub envGH oraclePutFails demoUpdate.file demoUpdate.content
      demoUpdate.commitMessage
      = ([Ev.ghGet (lit "home"), Ev.ghPut (lit "home") demoPutBody],
         .error demoCommitFailMsg)
  ∧ putConfigHandler envGH oraclePutFails emptyStore demoCommitBody
      = { resp := ⟨500, errorBody demoCommitFailMsg⟩, store := emptyStore,
          events := [Ev.ghGet (lit "home"), Ev.ghPut (lit "home") demoPutBody] } :=
  ⟨rfl, rfl, rfl,
    (c4_remote_failure_aborts envGH oraclePutFails emptyStore demoCommitBody demoUpdate
      [Ev.ghGet (lit "home"), Ev.ghPut (lit "home") demoPutBody] demoCommitFailMsg
      rfl rfl rfl).1⟩

/-- Claim C6: with `commit=true` and a successful remote commit, a local
write failure is swallowed — the response is still
`200 {ok:true, committed:true}` (so the local error is not surfaced) and
the local store is unchanged. -/
theorem c6_local_failure_swallowed (env : GHEnv) (o : Oracle) (st : LocalStore) (body : Json)
    (u : UpdateBody) (evs : List Ev) (pb : PutBody) (msg : Str)
    (hparse : updateSchemaParse body = .ok u)
    (hcommit : u.commit = true)
    (hok : commitToGitHub env o u.file u.content u.commitMessage = (evs, .ok pb))
    (hlocal : o.localWriteErr = some msg) :
    (putConfigHandler env o st body).resp = ⟨200, okBody true⟩
    ∧ (putConfigHandler env o st body).store = st := by
  simp only [putConfigHandler, hparse, hcommit, if_pos, hok]
  cases u.content <;> simp [hlocal]

/-- Witness for C6: a commit of `{}` to `home` whose remote PUT succeeds
while the local disk write fails. -/
theorem c6_witness :
    updateSchemaParse demoCommitBody = .ok demoUpdate
  ∧ demoUpdate.commit = true
  ∧ commitToGitHub envGH oracleLocalFails demoUpdate.file demoUpdate.content
      demoUpdate.commitMessage
      = ([Ev.ghGet (lit "home"), Ev.ghPut (lit "home") demoPutBody], .ok demoPutBody)
  ∧ oracleLocalFails.localWriteErr = some (lit "EACCES: permission denied")
  ∧ (putConfigHandler envGH oracleLocalFails emptyStore demoCommitBody).resp
      = ⟨200, okBody true⟩
  ∧ (putConfigHandler envGH oracleLocalFails emptyStore demoCommitBody).store = emptyStore :=
  ⟨rfl, rfl, rfl, rfl,
    (c6_local_failure_swallowed envGH oracleLocalFails emptyStore demoCommitBody demoUpdate
      [Ev.ghGet (lit "home"), Ev.ghPut (lit "home") demoPutBody] demoPutBody
      (lit "EACCES: permission denied") rfl rfl rfl rfl).1,
    (c6_local_failure_swallowed envGH oracleLocalFails emptyStore demoCommitBody demoUpdate
      [Ev.ghGet (lit "home"), Ev.ghPut (lit "home") demoPutBody] demoPutBody
      (lit "EACCES: permission denied") rfl rfl rfl rfl).2⟩

/-- A key not in `PAGE_KEYS` is nonempty or empty; every actual page key
is nonempty. -/
theorem page_key_ne_nil {k : Str} (hk : k ∈ PAGE_KEYS) : k.isEmpty = false := by
  fin_cases hk <;> rfl

/-- Claim C5: when the local read of a valid page key fails, the GET
handler returns the Remote Config Store's document if the GitHub
environment is configured (and the remote read succeeds), and surfaces
the local failure's message as the 500 body if it is not. -/
theorem c5_read_fallback (env : GHEnv) (o : Oracle) (st : LocalStore) (k : Str) (e : Str)
    (hk : k ∈ PAGE_KEYS)
    (hfail : readFromDisk st k = .error e) :
    (ghConfigured env = false →
      getConfigHandler env o st (some k)
        = { resp := ⟨500, errorBody e⟩, store := st, events := [Ev.localRead k] })
    ∧ (∀ d, ghConfigured env = true → readFromGitHub env o k = .ok d →
        getConfigHandler env o st (some k)
          = { resp := ⟨200, Json.obj [(lit "config", d)]⟩, store := st,
              events := [Ev.localRead k, Ev.ghGet k] }) := by
  have hne := page_key_ne_nil hk
  have hcont : PAGE_KEYS.contains k = true := List.elem_eq_true_of_mem hk
  constructor
  · intro hgh
    simp [getConfigHandler, hne, hcont, hk, hfail, hgh]
  · intro d hgh hrem
    simp [getConfigHandler, hne, hcont, hk, hfail, hgh, hrem]

/-- Witness for C5, both prongs at `home` over an empty local store: no
remote configured surfaces the `ENOENT` message; a configured remote
whose GET returns the base64 of `{}` yields `{config:{}}`. -/
theorem c5_witness :
    (lit "home") ∈ PAGE_KEYS
  ∧ readFromDisk emptyStore (lit "home") = .error (enoentMsg (lit "home"))
  ∧ ghConfigured envNone = false
  ∧ getConfigHandler envNone demoOracle emptyStore (some (lit "home"))
      = { resp := ⟨500, errorBody (enoentMsg (lit "home"))⟩, store := emptyStore,
          events := [Ev.localRead (lit "home")] }
  ∧ ghConfigured envGH = true
  ∧ readFromGitHub envGH oracleLocalFails (lit "home") = .ok (Json.obj [])
  ∧ getConfigHandler envGH oracleLocalFails emptyStore (some (lit "home"))
      = { resp := ⟨200, Json.obj [(lit "config", Json.obj [])]⟩, store := emptyStore,
          events := [Ev.localRead (lit "home"), Ev.ghGet (lit "home")] } :=
  ⟨by decide, rfl, rfl,
    (c5_read_fallback envNone demoOracle emptyStore (lit "home") (enoentMsg (lit "home"))
      (by decide) rfl).1 rfl,
    rfl, rfl,
    (c5_read_fallback envGH oracleLocalFails emptyStore (lit "home") (enoentMsg (lit "home"))
      (by decide) rfl).2 (Json.obj []) rfl rfl⟩

/-- Counterexample to claim C3 as stated: the empty string is a page key
outside the 5-element domain, yet a GET with `file=` (empty value) is
not rejected with 400 — the falsy query value defaults to `home`, the
local store is read, and the request succeeds. -/
theorem c3_counterexample :
    (([] : Str) ∉ PAGE_KEYS)
  ∧ (getConfigHandler envNone demoOracle storeHome (some ([] : Str))).resp.status = 200
  ∧ (getConfigHandler envNone demoOracle storeHome (some ([] : Str))).events
      = [Ev.localRead (lit "home")] :=
  ⟨by decide, rfl, rfl⟩

/-- Claim C3 (amended): for every nonempty page key outside the
5-element domain, the GET endpoint responds 400 and performs no store
access; and for every PUT body whose `file` field holds any key outside
the domain — the empty string included — the PUT endpoint responds 400,
leaves the store unchanged and performs no store access.  (An empty GET
`file` value is treated as absent and defaults to `home`.) -/
theorem c3_invalid_key_rejected (env : GHEnv) (o : Oracle) (st : LocalStore) (s : Str)
    (ms : List (Str × Json))
    (hs : s ∉ PAGE_KEYS)
    (hfile : lookupField ms (lit "file") = some (Json.str s)) :
    (s ≠ [] →
      getConfigHandler env o st (some s)
        = { resp := ⟨400, errorBody (lit "Invalid config key")⟩, store := st, events := [] })
    ∧ (putConfigHandler env o st (Json.obj ms)).resp.status = 400
    ∧ (putConfigHandler env o st (Json.obj ms)).store = st
    ∧ (putConfigHandler env o st (Json.obj ms)).events = [] := by
  have hcont : PAGE_KEYS.contains s = false := by
    by_contra h
    rw [Bool.not_eq_false] at h
    exact hs (List.mem_of_elem_eq_true h)
  have hparse : ∃ issues, updateSchemaParse (Json.obj ms) = .error issues := by
    cases hres : updateSchemaParse (Json.obj ms) with
    | error issues => exact ⟨issues, rfl⟩
    | ok u =>
      exfalso
      simp only [updateSchemaParse, hfile, hcont] at hres
      split at hres <;> simp_all
  obtain ⟨issues, hissues⟩ := hparse
  refine ⟨?_, ?_, ?_, ?_⟩
  · intro hne
    have hempty : s.isEmpty = false := by
      cases s with
      | nil => exact absurd rfl hne
      | cons a b => rfl
    simp [getConfigHandler, hempty, hcont, hs]
  · simp [putConfigHandler, hissues]
  · simp [putConfigHandler, hissues]
  · simp [putConfigHandler, hissues]

/-- Witness for the amended C3 at the key `bogus`. -/
theorem c3_witness :
    (lit "bogus") ∉ PAGE_KEYS
  ∧ lookupField [(lit "file", Json.str (lit "bogus"))] (lit "file")
      = some (Json.str (lit "bogus"))
  ∧ getConfigHandler envNone demoOracle emptyStore (some (lit "bogus"))
      = { resp := ⟨400, errorBody (lit "Invalid config key")⟩, store := emptyStore,
          events := [] }
  ∧ ((putConfigHandler envNone demoOracle emptyStore
        (Json.obj [(lit "file", Json.str (lit "bogus"))])).resp.status = 400
    ∧ (putConfigHandler envNone demoOracle emptyStore
        (Json.obj [(lit "file", Json.str (lit "bogus"))])).store = emptyStore
    ∧ (putConfigHandler envNone demoOracle emptyStore
        (Json.obj [(lit "file", Json.str (lit "bogus"))])).events = []) :=
  ⟨by decide, rfl,
    (c3_invalid_key_rejected envNone demoOracle emptyStore (lit "bogus")
      [(lit "file", Json.str (lit "bogus"))] (by decide) rfl).1 (by decide),
    (c3_invalid_key_rejected envNone demoOracle emptyStore (lit "bogus")
      [(lit "file", Json.str (lit "bogus"))] (by decide) rfl).2⟩

/-- Claim C1's failing input, evaluated: the header `Basic eA==` decodes
to `x` — no colon, so `pass` is `undefined` — and `x` is not a
configured user, so `ADMIN_CREDENTIALS['x'] === pass` compares
`undefined === undefined`: the guard calls `next()`, the handler runs,
and the response is not 401.  The claim requires a 401 here. -/
theorem c1_auth_bypass_eval :
    demoCreds (lit "x") = none
  ∧ authGuard demoCreds (some (lit "Basic eA==")) = GuardResult.next
  ∧ (getConfigRoute demoCreds envNone demoOracle emptyStore
      (some (lit "Basic eA==")) none).handlerRan = true
  ∧ (getConfigRoute demoCreds envNone demoOracle emptyStore
      (some (lit "Basic eA==")) none).resp.status = 500 :=
  ⟨rfl, rfl, rfl, rfl⟩

/-- Claim C2's failing input, evaluated: `{"file":"services"}` passes
`updateSchema.parse` (zod's `z.any()` treats the missing `content` as an
acceptable `undefined`), so there is no 400; the handler then reaches
`JSON.stringify(undefined)`/`fs.writeFile`, whose `TypeError` the catch
turns into a 500.  No document is written. -/
theorem c2_missing_content_eval :
    updateSchemaParse c2Body = .ok ⟨none, false, none, lit "services"⟩
  ∧ putConfigHandler envNone demoOracle emptyStore c2Body
      = { resp := ⟨500, errorBody typeErrMsg⟩, store := emptyStore, events := [] } :=
  ⟨rfl, rfl⟩

/-- Claim C10: a configured user whose stored password contains a colon
is locked out — any request whose decoded credentials name that user is
rejected 401, because the compared password chunk is the text between
the first and second colon of the decoded payload and can never contain
a colon. -/
theorem c10_colon_password_rejected (creds : Str → Option Str) (u p encoded : Str)
    (hcred : creds u = some p)
    (hcolon : ':' ∈ p)
    (hsp : ' ' ∉ encoded)
    (huser : (splitOnChar ':' (base64Decode encoded)).headD [] = u) :
    authGuard creds (some (lit "Basic " ++ encoded)) = .unauthorized := by
  have hsplit : splitOnChar ' ' (lit "Basic " ++ encoded)
      = [['B', 'a', 's', 'i', 'c'], encoded] := by
    have he : splitOnChar ' ' encoded = [encoded] := splitOnChar_no_sep hsp
    show splitOnChar ' ' ('B' :: 'a' :: 's' :: 'i' :: 'c' :: ' ' :: encoded) = _
    simp [splitOnChar, he]
  have hcheck : authCheck creds (base64Decode encoded) = false := by
    simp only [authCheck]
    rw [huser, hcred]
    cases hq : (splitOnChar ':' (base64Decode encoded)).get? 1 with
    | none => rfl
    | some q =>
      have hqmem : q ∈ splitOnChar ':' (base64Decode encoded) := List.get?_mem hq
      have hnc : ':' ∉ q := mem_splitOnChar hqmem
      have hpq : p ≠ q := fun hEq => hnc (hEq ▸ hcolon)
      rw [Bool.eq_false_iff]
      intro hbeq
      rw [beq_iff_eq] at hbeq
      exact hpq (Option.some.inj hbeq)
  by_cases henc : encoded = []
  · subst henc
    rfl
  · simp only [authGuard, Option.getD_some, hsplit]
    have hscheme : (['B', 'a', 's', 'i', 'c'] : Str) = lit "Basic" := rfl
    simp [hscheme, henc, hcheck]

/-- Witness for C10: the user `alice` with stored password `a:b`,
presented with `alice`'s exactly correct Basic credentials
(base64 of `alice:a:b`), is still rejected. -/
theorem c10_witness :
    credsColon (lit "alice") = some (lit "a:b")
  ∧ (':' ∈ lit "a:b")
  ∧ (' ' ∉ base64Encode (lit "alice:a:b"))
  ∧ (splitOnChar ':' (base64Decode (base64Encode (lit "alice:a:b")))).headD [] = lit "alice"
  ∧ authGuard credsColon (some (lit "Basic " ++ base64Encode (lit "alice:a:b")))
      = GuardResult.unauthorized :=
  ⟨rfl, by decide, by decide, by decide,
    c10_colon_password_rejected credsColon (lit "alice") (lit "a:b")
      (base64Encode (lit "alice:a:b")) rfl (by decide) (by decide) (by decide)⟩

end EvossBE
